import Mathlib

/-! Shallow embedding of the trade analysis engine (`analyzeTrades` in the
application source): the position-tracking P&L reconstruction, the
statistics aggregation, and the five bias-detection rules.  JavaScript
numbers are modelled as rationals; `date` strings are modelled by their
parsed ordering key (the value `new Date(d).getTime()` used only for
sorting); `toLowerCase` is modelled character-wise.  The templated
`description` and `recommendation` display strings of an insight are
presentational and omitted; `type`, `severity` and `metric` are kept.
-/

namespace TradeBias

/-- Model of JavaScript `String.prototype.toLowerCase()` for the ASCII
action strings the engine compares against. -/
def lowerString (s : String) : String := String.mk (s.data.map Char.toLower)

/-- One input record: `date` is the parsed ordering key of the date string,
`quantity` and `price` are the numeric fields. -/
structure Trade where
  date : Int
  symbol : String
  action : String
  quantity : ℚ
  price : ℚ
deriving DecidableEq

/-- Severity level of an insight, fixed per rule. -/
inductive Severity where
  | low
  | medium
  | high
deriving DecidableEq

/-- One emitted bias insight (display strings omitted, see header). -/
structure BiasInsight where
  type : String
  severity : Severity
  metric : ℚ
deriving DecidableEq

/-- The aggregate statistics record returned with the insights. -/
structure TradeStats where
  totalTrades : Nat
  winRate : ℚ
  avgProfit : ℚ
  avgLoss : ℚ
  profitFactor : ℚ
deriving DecidableEq

/-- The engine's return value `\x7b insights, stats \x7d`. -/
structure AnalysisResult where
  insights : List BiasInsight
  stats : TradeStats
deriving DecidableEq

/-- Per-symbol replay state of the position reconstructor, together with
the (globally shared) profit and loss event lists it appends to. -/
structure PassState where
  position : ℚ
  avgCost : ℚ
  profits : List ℚ
  losses : List ℚ
deriving DecidableEq

/-- State at the start of a symbol's replay: flat position, zero average
cost, and the event lists accumulated so far. -/
def initState (profits losses : List ℚ) : PassState :=
  { position := 0, avgCost := 0, profits := profits, losses := losses }

/-- One trade of a symbol's replay.  Buy: update the volume-weighted
average cost, then increase the position.  Sell with a strictly positive
position: realize `(price - avgCost) * min quantity position`, push it to
`profits` if strictly positive and its absolute value to `losses`
otherwise, then decrease the position by the full sell quantity (no
clamping).  Any other trade leaves the state unchanged. -/
def step (st : PassState) (t : Trade) : PassState :=
  if lowerString t.action = "buy" then
    { st with
      avgCost := (st.avgCost * st.position + t.price * t.quantity) / (st.position + t.quantity),
      position := st.position + t.quantity }
  else if lowerString t.action = "sell" ∧ 0 < st.position then
    let pnl := (t.price - st.avgCost) * min t.quantity st.position
    if 0 < pnl then
      { st with
        profits := st.profits ++ [pnl],
        position := st.position - t.quantity }
    else
      { st with
        losses := st.losses ++ [|pnl|],
        position := st.position - t.quantity }
  else st

/-- Distinct symbols in first-seen order: the keys of the `symbolTrades`
object built by pushing each trade into its symbol's bucket. -/
def groupKeys (trades : List Trade) : List String :=
  trades.foldl (fun acc t => if t.symbol ∈ acc then acc else acc ++ [t.symbol]) []

/-- The bucket of a symbol: that symbol's trades in original order. -/
def symbolGroup (trades : List Trade) (s : String) : List Trade :=
  trades.filter (fun t => t.symbol = s)

/-- Replay one symbol's trades from a flat position. -/
def passSymbol (profits losses : List ℚ) (tl : List Trade) : PassState :=
  tl.foldl step (initState profits losses)

/-- The pooled profit and loss event lists over all symbols. -/
def allPnl (trades : List Trade) : List ℚ × List ℚ :=
  (groupKeys trades).foldl
    (fun acc s =>
      let st := passSymbol acc.1 acc.2 (symbolGroup trades s)
      (st.profits, st.losses))
    ([], [])

/-- Sum of a list of rationals, as `reduce((a, b) => a + b, 0)`. -/
def sumQ (l : List ℚ) : ℚ := l.foldl (fun a b => a + b) 0

/-- Mean of a list, `0` for the empty list. -/
def meanList (l : List ℚ) : ℚ :=
  if 0 < l.length then sumQ l / (l.length : ℚ) else 0

/-- The raw (unrounded) win rate. -/
def winRateRaw (profits losses : List ℚ) : ℚ :=
  if 0 < profits.length then
    ((profits.length : ℚ) / ((profits.length : ℚ) + (losses.length : ℚ))) * 100
  else 0

/-- The profit factor. -/
def profitFactorOf (profits losses : List ℚ) : ℚ :=
  if 0 < meanList losses then
    (meanList profits * (profits.length : ℚ)) / (meanList losses * (losses.length : ℚ))
  else 0

/-- Model of `parseFloat(x.toFixed(1))` for a non-negative argument
(round half away from zero to one decimal; the engine only applies it to
the win rate, which is non-negative). -/
def toFixed1 (x : ℚ) : ℚ := ((⌊x * 10 + 1 / 2⌋ : ℤ) : ℚ) / 10

/-- Metric of the Loss Aversion rule, `Math.min((avgLoss / avgProfit) * 50, 100)`.
Under the rule's guard `avgLoss > avgProfit * 1.5`, if `avgProfit = 0` then
`avgLoss > 0`, so the IEEE quotient is positive infinity and the `min`
yields exactly `100`; the first branch encodes that case. -/
def lossAversionMetric (avgProfit avgLoss : ℚ) : ℚ :=
  if avgProfit = 0 then 100 else min (avgLoss / avgProfit * 50) 100

/-- Rule 1, Loss Aversion Bias. -/
def lossAversionInsights (avgProfit avgLoss : ℚ) : List BiasInsight :=
  if avgProfit * 1.5 < avgLoss then
    [{ type := "Loss Aversion Bias", severity := Severity.high,
       metric := lossAversionMetric avgProfit avgLoss }]
  else []

/-- The `tradesPerSymbol` ratio (all trades over distinct symbols).  For
the empty trade list the source computes `0 / 0 = NaN` and `NaN > 8` is
false; here `0 / 0 = 0` and `0 > 8` is false, the same outcome. -/
def tradesPerSymbolOf (trades : List Trade) : ℚ :=
  (trades.length : ℚ) / ((groupKeys trades).length : ℚ)

/-- Rule 2, Overtrading Bias. -/
def overtradingInsights (trades : List Trade) : List BiasInsight :=
  if 8 < tradesPerSymbolOf trades then
    [{ type := "Overtrading Bias", severity := Severity.medium,
       metric := min (tradesPerSymbolOf trades * 10) 100 }]
  else []

/-- Insert a trade into a list sorted ascending by date key. -/
def insertByDate (t : Trade) : List Trade → List Trade
  | [] => [t]
  | u :: us => if t.date ≤ u.date then t :: u :: us else u :: insertByDate t us

/-- The trade list sorted ascending by date key, as the source's
`[...trades].sort((a, b) => dateKey a - dateKey b)`. -/
def sortByDate : List Trade → List Trade
  | [] => []
  | t :: ts => insertByDate t (sortByDate ts)

/-- The source's `sortedTrades.slice(-Math.floor(trades.length / 3))`.
When `floor(length / 3) = 0` the argument is `-0`, and `slice(-0)` is
`slice(0)`: the WHOLE sorted list, not its last zero elements.  When the
floor is `k ≥ 1`, `slice(-k)` is the last `k` elements. -/
def recentTradesOf (trades : List Trade) : List Trade :=
  let k := trades.length / 3
  let sorted := sortByDate trades
  if k = 0 then sorted else sorted.drop (sorted.length - k)

/-- The Recency rule's concentration percentage.  For the empty trade
list the source computes `(0 / 0) * 100 = NaN` and `NaN > 40` is false;
here the value is `0` and `0 > 40` is false, the same outcome. -/
def recentConcentration (trades : List Trade) : ℚ :=
  (((recentTradesOf trades).length : ℚ) / (trades.length : ℚ)) * 100

/-- Rule 3, Recency Bias. -/
def recencyInsights (trades : List Trade) : List BiasInsight :=
  if 40 < recentConcentration trades then
    [{ type := "Recency Bias", severity := Severity.medium,
       metric := recentConcentration trades }]
  else []

/-- Per-symbol trade counts (the values of `symbolFrequency`). -/
def symbolFrequencies (trades : List Trade) : List Nat :=
  (groupKeys trades).map (fun s => (symbolGroup trades s).length)

/-- The source's `Math.max(...Object.values(symbolFrequency))`.  For the
empty list the spread yields negative infinity, making the Confirmation
condition false; base `0` gives the same outcome there, and every actual
frequency is at least `1`, so non-empty lists agree exactly. -/
def maxFreqOf (trades : List Trade) : Nat :=
  (symbolFrequencies trades).foldl max 0

/-- The Confirmation rule's concentration percentage. -/
def concentrationOf (trades : List Trade) : ℚ :=
  ((maxFreqOf trades : ℚ) / (trades.length : ℚ)) * 100

/-- Rule 4, Confirmation Bias. -/
def confirmationInsights (trades : List Trade) : List BiasInsight :=
  if 25 < concentrationOf trades then
    [{ type := "Confirmation Bias", severity := Severity.low,
       metric := concentrationOf trades }]
  else []

/-- Rule 5, Strategy Effectiveness (win-rate analysis), evaluated on the
raw unrounded win rate. -/
def strategyInsights (winRate : ℚ) : List BiasInsight :=
  if winRate < 40 then
    [{ type := "Strategy Effectiveness", severity := Severity.high,
       metric := 100 - winRate }]
  else []

/-- The whole engine: reconstruct P&L events, aggregate statistics, then
evaluate the five rules in source order. -/
def analyzeTrades (trades : List Trade) : AnalysisResult :=
  let pl := allPnl trades
  let winRate := winRateRaw pl.1 pl.2
  let avgProfit := meanList pl.1
  let avgLoss := meanList pl.2
  { insights :=
      lossAversionInsights avgProfit avgLoss
        ++ overtradingInsights trades
        ++ recencyInsights trades
        ++ confirmationInsights trades
        ++ strategyInsights winRate,
    stats :=
      { totalTrades := trades.length,
        winRate := toFixed1 winRate,
        avgProfit := avgProfit,
        avgLoss := avgLoss,
        profitFactor := profitFactorOf pl.1 pl.2 } }

/-- Instrumentation of the buy branch's division: `true` when the trade
is not a buy whose divisor `position + quantity` is zero. -/
def stepOk (st : PassState) (t : Trade) : Bool :=
  if lowerString t.action = "buy" then
    if st.position + t.quantity = 0 then false else true
  else true

/-- Division safety of one symbol's replay. -/
def passOk : PassState → List Trade → Bool
  | _, [] => true
  | st, t :: ts => stepOk st t && passOk (step st t) ts

/-- Division safety of the whole reconstruction: `true` when no buy
update of any symbol's replay divides by zero. -/
def buyDivOk (trades : List Trade) : Bool :=
  (groupKeys trades).all (fun s => passOk (initState [] []) (symbolGroup trades s))

/-! Basic evaluation facts about the action-string comparisons. -/

lemma lower_buy : lowerString "buy" = "buy" := by decide

lemma lower_sell : lowerString "sell" = "sell" := by decide

lemma sell_ne_buy : ¬ ("sell" = "buy") := by decide

/-! Sign invariants of the reconstruction: every profit event is strictly
positive, every loss event is non-negative. -/

lemma step_inv (st : PassState) (t : Trade)
    (hp : ∀ x ∈ st.profits, 0 < x) (hl : ∀ x ∈ st.losses, 0 ≤ x) :
    (∀ x ∈ (step st t).profits, 0 < x) ∧ (∀ x ∈ (step st t).losses, 0 ≤ x) := by
  simp only [step]
  split
  · exact ⟨hp, hl⟩
  split
  · split
    · rename_i hpnl
      refine ⟨?_, hl⟩
      intro x hx
      rcases List.mem_append.1 hx with h | h
      · exact hp x h
      · rw [List.mem_singleton] at h
        exact h ▸ hpnl
    · refine ⟨hp, ?_⟩
      intro x hx
      rcases List.mem_append.1 hx with h | h
      · exact hl x h
      · rw [List.mem_singleton] at h
        exact h ▸ abs_nonneg _
  · exact ⟨hp, hl⟩

lemma foldl_step_inv (tl : List Trade) (st : PassState)
    (hp : ∀ x ∈ st.profits, 0 < x) (hl : ∀ x ∈ st.losses, 0 ≤ x) :
    (∀ x ∈ (tl.foldl step st).profits, 0 < x) ∧ (∀ x ∈ (tl.foldl step st).losses, 0 ≤ x) := by
  induction tl generalizing st with
  | nil => exact ⟨hp, hl⟩
  | cons t ts ih =>
    have h := step_inv st t hp hl
    exact ih (step st t) h.1 h.2

lemma allPnlAux_inv (trades : List Trade) (keys : List String) (acc : List ℚ × List ℚ)
    (hp : ∀ x ∈ acc.1, 0 < x) (hl : ∀ x ∈ acc.2, 0 ≤ x) :
    (∀ x ∈ (keys.foldl
        (fun acc s =>
          let st := passSymbol acc.1 acc.2 (symbolGroup trades s)
          (st.profits, st.losses)) acc).1, 0 < x) ∧
    (∀ x ∈ (keys.foldl
        (fun acc s =>
          let st := passSymbol acc.1 acc.2 (symbolGroup trades s)
          (st.profits, st.losses)) acc).2, 0 ≤ x) := by
  induction keys generalizing acc with
  | nil => exact ⟨hp, hl⟩
  | cons k ks ih =>
    have h := foldl_step_inv (symbolGroup trades k) (initState acc.1 acc.2) hp hl
    exact ih _ h.1 h.2

lemma allPnl_inv (trades : List Trade) :
    (∀ x ∈ (allPnl trades).1, 0 < x) ∧ (∀ x ∈ (allPnl trades).2, 0 ≤ x) := by
  unfold allPnl
  exact allPnlAux_inv trades (groupKeys trades) ([], [])
    (by intro x hx; simp at hx) (by intro x hx; simp at hx)

/-! Sums and means. -/

lemma foldl_add_nonneg (l : List ℚ) (a : ℚ) (ha : 0 ≤ a) (h : ∀ x ∈ l, 0 ≤ x) :
    0 ≤ l.foldl (fun a b => a + b) a := by
  induction l generalizing a with
  | nil => exact ha
  | cons x xs ih =>
    refine ih _ (add_nonneg ha (h x (List.mem_cons_self x xs))) ?_
    intro y hy
    exact h y (List.mem_cons_of_mem _ hy)

lemma foldl_add_pos (l : List ℚ) (a : ℚ) (ha : 0 < a) (h : ∀ x ∈ l, 0 ≤ x) :
    0 < l.foldl (fun a b => a + b) a := by
  induction l generalizing a with
  | nil => exact ha
  | cons x xs ih =>
    refine ih _ (add_pos_of_pos_of_nonneg ha (h x (List.mem_cons_self x xs))) ?_
    intro y hy
    exact h y (List.mem_cons_of_mem _ hy)

lemma sumQ_nonneg (l : List ℚ) (h : ∀ x ∈ l, 0 ≤ x) : 0 ≤ sumQ l :=
  foldl_add_nonneg l 0 le_rfl h

lemma sumQ_pos (l : List ℚ) (hne : l ≠ []) (h : ∀ x ∈ l, 0 < x) : 0 < sumQ l := by
  cases l with
  | nil => exact absurd rfl hne
  | cons x xs =>
    unfold sumQ
    simp only [List.foldl_cons]
    refine foldl_add_pos xs (0 + x) ?_ ?_
    · simpa using h x (List.mem_cons_self x xs)
    · intro y hy
      exact (h y (List.mem_cons_of_mem _ hy)).le

lemma meanList_nonneg (l : List ℚ) (h : ∀ x ∈ l, 0 ≤ x) : 0 ≤ meanList l := by
  unfold meanList
  split
  · exact div_nonneg (sumQ_nonneg l h) (by positivity)
  · exact le_rfl

lemma meanList_pos (l : List ℚ) (hne : l ≠ []) (h : ∀ x ∈ l, 0 < x) : 0 < meanList l := by
  have hlen : 0 < l.length := List.length_pos.2 hne
  unfold meanList
  rw [if_pos hlen]
  exact div_pos (sumQ_pos l hne h) (by exact_mod_cast hlen)

lemma meanList_mul_length (l : List ℚ) : meanList l * (l.length : ℚ) = sumQ l := by
  unfold meanList
  split
  · rename_i hlen
    have : (l.length : ℚ) ≠ 0 := by exact_mod_cast hlen.ne.symm
    field_simp
  · rename_i hlen
    have hz : l.length = 0 := Nat.eq_zero_of_not_pos hlen
    rw [List.length_eq_zero.1 hz]
    simp [sumQ]

/-! Bounds on the win rate and its rounding. -/

lemma winRateRaw_nonneg (profits losses : List ℚ) : 0 ≤ winRateRaw profits losses := by
  unfold winRateRaw
  split
  · positivity
  · exact le_rfl

lemma winRateRaw_le_100 (profits losses : List ℚ) : winRateRaw profits losses ≤ 100 := by
  unfold winRateRaw
  split
  · rename_i hpos
    have hp : (0 : ℚ) < (profits.length : ℚ) := by exact_mod_cast hpos
    have hl : (0 : ℚ) ≤ (losses.length : ℚ) := by positivity
    have hden : (0 : ℚ) < (profits.length : ℚ) + (losses.length : ℚ) := by linarith
    have hq : (profits.length : ℚ) / ((profits.length : ℚ) + (losses.length : ℚ)) ≤ 1 :=
      (div_le_one hden).2 (by linarith)
    calc (profits.length : ℚ) / ((profits.length : ℚ) + (losses.length : ℚ)) * 100
        ≤ 1 * 100 := by nlinarith
      _ = 100 := one_mul 100
  · norm_num

lemma toFixed1_nonneg (x : ℚ) (hx : 0 ≤ x) : 0 ≤ toFixed1 x := by
  unfold toFixed1
  have hfl : (0 : ℤ) ≤ ⌊x * 10 + 1 / 2⌋ := Int.le_floor.2 (by push_cast; linarith)
  have : (0 : ℚ) ≤ ((⌊x * 10 + 1 / 2⌋ : ℤ) : ℚ) := by exact_mod_cast hfl
  linarith

lemma toFixed1_le_100 (x : ℚ) (hx : x ≤ 100) : toFixed1 x ≤ 100 := by
  unfold toFixed1
  have hle : ⌊x * 10 + 1 / 2⌋ ≤ ⌊(2001 / 2 : ℚ)⌋ := Int.floor_le_floor (by linarith)
  have h2 : (⌊(2001 / 2 : ℚ)⌋ : ℤ) = 1000 := by norm_num
  have : ((⌊x * 10 + 1 / 2⌋ : ℤ) : ℚ) ≤ 1000 := by exact_mod_cast h2 ▸ hle
  linarith

lemma toFixed1_zero : toFixed1 0 = 0 := by norm_num [toFixed1]

/-! Lengths through the date sort and the recent-slice. -/

lemma length_insertByDate (t : Trade) (l : List Trade) :
    (insertByDate t l).length = l.length + 1 := by
  induction l with
  | nil => rfl
  | cons u us ih =>
    unfold insertByDate
    split
    · simp
    · simp [ih]

lemma length_sortByDate (l : List Trade) : (sortByDate l).length = l.length := by
  induction l with
  | nil => rfl
  | cons t ts ih =>
    unfold sortByDate
    rw [length_insertByDate, ih, List.length_cons]

lemma recentTradesOf_length (trades : List Trade) :
    (recentTradesOf trades).length =
      if trades.length / 3 = 0 then trades.length else trades.length / 3 := by
  simp only [recentTradesOf]
  have hdiv : trades.length / 3 ≤ trades.length := Nat.div_le_self _ _
  split
  · exact length_sortByDate trades
  · rw [List.length_drop, length_sortByDate]
    omega

lemma recentTradesOf_length_le (trades : List Trade) :
    (recentTradesOf trades).length ≤ trades.length := by
  rw [recentTradesOf_length]
  split
  · exact le_rfl
  · exact Nat.div_le_self _ _

lemma ratio_mul_100_bounds (a n : Nat) (h : a ≤ n) :
    0 ≤ ((a : ℚ) / (n : ℚ)) * 100 ∧ ((a : ℚ) / (n : ℚ)) * 100 ≤ 100 := by
  rcases Nat.eq_zero_or_pos n with hn | hn
  · subst hn
    simp
  · have hn0 : (0 : ℚ) < (n : ℚ) := by exact_mod_cast hn
    have ha0 : (0 : ℚ) ≤ (a : ℚ) := by positivity
    have haq : (a : ℚ) ≤ (n : ℚ) := by exact_mod_cast h
    have hq : (a : ℚ) / (n : ℚ) ≤ 1 := (div_le_one hn0).2 haq
    constructor
    · positivity
    · nlinarith [div_nonneg ha0 hn0.le]

lemma recentConcentration_bounds (trades : List Trade) :
    0 ≤ recentConcentration trades ∧ recentConcentration trades ≤ 100 := by
  unfold recentConcentration
  exact ratio_mul_100_bounds _ _ (recentTradesOf_length_le trades)

lemma foldl_max_le (l : List Nat) (a n : Nat) (ha : a ≤ n) (h : ∀ x ∈ l, x ≤ n) :
    l.foldl max a ≤ n := by
  induction l generalizing a with
  | nil => exact ha
  | cons x xs ih =>
    refine ih _ (max_le ha (h x (List.mem_cons_self x xs))) ?_
    intro y hy
    exact h y (List.mem_cons_of_mem _ hy)

lemma maxFreqOf_le (trades : List Trade) : maxFreqOf trades ≤ trades.length := by
  unfold maxFreqOf
  refine foldl_max_le _ 0 _ (Nat.zero_le _) ?_
  intro x hx
  unfold symbolFrequencies at hx
  rcases List.mem_map.1 hx with ⟨s, _, rfl⟩
  exact List.length_filter_le _ _

lemma concentrationOf_bounds (trades : List Trade) :
    0 ≤ concentrationOf trades ∧ concentrationOf trades ≤ 100 := by
  unfold concentrationOf
  exact ratio_mul_100_bounds _ _ (maxFreqOf_le trades)

/-! Every emitted metric is at most 100, rule by rule. -/

lemma lossAversion_metric_le (ap al : ℚ) (b : BiasInsight)
    (hb : b ∈ lossAversionInsights ap al) : b.metric ≤ 100 := by
  unfold lossAversionInsights at hb
  split at hb
  · rw [List.mem_singleton] at hb
    subst hb
    unfold lossAversionMetric
    split
    · exact le_rfl
    · exact min_le_right _ _
  · exact absurd hb (List.not_mem_nil b)

lemma overtrading_metric_le (trades : List Trade) (b : BiasInsight)
    (hb : b ∈ overtradingInsights trades) : b.metric ≤ 100 := by
  unfold overtradingInsights at hb
  split at hb
  · rw [List.mem_singleton] at hb
    subst hb
    exact min_le_right _ _
  · exact absurd hb (List.not_mem_nil b)

lemma recency_metric_le (trades : List Trade) (b : BiasInsight)
    (hb : b ∈ recencyInsights trades) : b.metric ≤ 100 := by
  unfold recencyInsights at hb
  split at hb
  · rw [List.mem_singleton] at hb
    subst hb
    exact (recentConcentration_bounds trades).2
  · exact absurd hb (List.not_mem_nil b)

lemma confirmation_metric_le (trades : List Trade) (b : BiasInsight)
    (hb : b ∈ confirmationInsights trades) : b.metric ≤ 100 := by
  unfold confirmationInsights at hb
  split at hb
  · rw [List.mem_singleton] at hb
    subst hb
    exact (concentrationOf_bounds trades).2
  · exact absurd hb (List.not_mem_nil b)

lemma strategy_metric_le (w : ℚ) (hw : 0 ≤ w) (b : BiasInsight)
    (hb : b ∈ strategyInsights w) : b.metric ≤ 100 := by
  unfold strategyInsights at hb
  split at hb
  · rw [List.mem_singleton] at hb
    subst hb
    simp only
    linarith
  · exact absurd hb (List.not_mem_nil b)

lemma metric_le_100_all (trades : List Trade) (b : BiasInsight)
    (hb : b ∈ (analyzeTrades trades).insights) : b.metric ≤ 100 := by
  simp only [analyzeTrades, List.mem_append] at hb
  rcases hb with ((((h | h) | h) | h) | h)
  · exact lossAversion_metric_le _ _ b h
  · exact overtrading_metric_le trades b h
  · exact recency_metric_le trades b h
  · exact confirmation_metric_le trades b h
  · exact strategy_metric_le _ (winRateRaw_nonneg _ _) b h

/-! Projection helpers for the engine's result record. -/

lemma analyzeTrades_stats (trades : List Trade) :
    (analyzeTrades trades).stats =
      { totalTrades := trades.length,
        winRate := toFixed1 (winRateRaw (allPnl trades).1 (allPnl trades).2),
        avgProfit := meanList (allPnl trades).1,
        avgLoss := meanList (allPnl trades).2,
        profitFactor := profitFactorOf (allPnl trades).1 (allPnl trades).2 } := rfl

lemma analyzeTrades_insights (trades : List Trade) :
    (analyzeTrades trades).insights =
      lossAversionInsights (meanList (allPnl trades).1) (meanList (allPnl trades).2)
        ++ overtradingInsights trades
        ++ recencyInsights trades
        ++ confirmationInsights trades
        ++ strategyInsights (winRateRaw (allPnl trades).1 (allPnl trades).2) := rfl

/-! Insight-type separation: only rule 5 emits the Strategy Effectiveness type. -/

lemma la_ne_strat : ¬ ("Loss Aversion Bias" = "Strategy Effectiveness") := by decide

lemma ot_ne_strat : ¬ ("Overtrading Bias" = "Strategy Effectiveness") := by decide

lemma re_ne_strat : ¬ ("Recency Bias" = "Strategy Effectiveness") := by decide

lemma co_ne_strat : ¬ ("Confirmation Bias" = "Strategy Effectiveness") := by decide

lemma filterStrat_lossAversion (ap al : ℚ) :
    (lossAversionInsights ap al).filter (fun b => b.type = "Strategy Effectiveness") = [] := by
  unfold lossAversionInsights
  split <;> simp [la_ne_strat]

lemma filterStrat_overtrading (trades : List Trade) :
    (overtradingInsights trades).filter (fun b => b.type = "Strategy Effectiveness") = [] := by
  unfold overtradingInsights
  split <;> simp [ot_ne_strat]

lemma filterStrat_recency (trades : List Trade) :
    (recencyInsights trades).filter (fun b => b.type = "Strategy Effectiveness") = [] := by
  unfold recencyInsights
  split <;> simp [re_ne_strat]

lemma filterStrat_confirmation (trades : List Trade) :
    (confirmationInsights trades).filter (fun b => b.type = "Strategy Effectiveness") = [] := by
  unfold confirmationInsights
  split <;> simp [co_ne_strat]

lemma filterStrat_strategy (w : ℚ) :
    (strategyInsights w).filter (fun b => b.type = "Strategy Effectiveness") =
      strategyInsights w := by
  unfold strategyInsights
  split <;> simp

/-! Evaluation of the engine on the empty trade list. -/

lemma analyzeTrades_nil :
    analyzeTrades [] =
      { insights := [{ type := "Strategy Effectiveness", severity := Severity.high, metric := 100 }],
        stats := { totalTrades := 0, winRate := 0, avgProfit := 0, avgLoss := 0,
                   profitFactor := 0 } } := by
  norm_num [analyzeTrades, allPnl, groupKeys, winRateRaw, meanList, sumQ, profitFactorOf,
    toFixed1, lossAversionInsights, overtradingInsights, tradesPerSymbolOf, recencyInsights,
    recentConcentration, recentTradesOf, sortByDate, confirmationInsights, concentrationOf,
    maxFreqOf, symbolFrequencies, strategyInsights, lossAversionMetric]

/-! Concrete inputs used by scenario theorems and witnesses. -/

def scenarioA : List Trade :=
  [{ date := 0, symbol := "AAPL", action := "buy", quantity := 10, price := 10 },
   { date := 1, symbol := "AAPL", action := "sell", quantity := 10, price := 15 }]

def scenarioLoss : List Trade :=
  [{ date := 0, symbol := "A", action := "buy", quantity := 10, price := 10 },
   { date := 1, symbol := "A", action := "sell", quantity := 10, price := 5 }]

lemma allPnl_scenarioA : allPnl scenarioA = ([50], []) := by
  norm_num [scenarioA, allPnl, groupKeys, symbolGroup, passSymbol, initState, step,
    lower_buy, lower_sell, sell_ne_buy]

lemma allPnl_scenarioLoss : allPnl scenarioLoss = ([], [50]) := by
  norm_num [scenarioLoss, allPnl, groupKeys, symbolGroup, passSymbol, initState, step,
    lower_buy, lower_sell, sell_ne_buy]

/-- C1: during a symbol's single pass, a sell encountered while the running
position is strictly positive realizes exactly one P&L event equal to
`(price - avgCost) * min quantity position`; the event is appended to the
profits list when strictly positive and its absolute value is appended to
the losses list otherwise (a P&L of exactly zero included); the position is
then decremented by the full sell quantity without clamping.  A sell while
the position is not strictly positive leaves the state unchanged. -/
theorem C1_sell_semantics (st : PassState) (t : Trade)
    (hsell : lowerString t.action = "sell") :
    step st t =
      if 0 < st.position then
        if 0 < (t.price - st.avgCost) * min t.quantity st.position then
          { st with
            profits := st.profits ++ [(t.price - st.avgCost) * min t.quantity st.position],
            position := st.position - t.quantity }
        else
          { st with
            losses := st.losses ++ [|(t.price - st.avgCost) * min t.quantity st.position|],
            position := st.position - t.quantity }
      else st := by
  simp only [step, hsell, true_and]
  rw [if_neg sell_ne_buy]

/-- Witness for C1 at a concrete profitable sell. -/
theorem C1_sell_semantics_witness :
    lowerString "sell" = "sell" ∧
    (step { position := 10, avgCost := 10, profits := [], losses := [] }
        { date := 1, symbol := "A", action := "sell", quantity := 10, price := 15 }).profits =
      [50] := by
  refine ⟨by decide, ?_⟩
  have h := C1_sell_semantics
    { position := 10, avgCost := 10, profits := [], losses := [] }
    { date := 1, symbol := "A", action := "sell", quantity := 10, price := 15 }
    (by decide)
  rw [h]
  norm_num

/-- C2 counterexample: on a one-trade list the Recency rule selects one
trade, not `floor(1 / 3) = 0` of them, because `slice(-0)` returns the
whole array. -/
theorem C2_recency_counterexample :
    (recentTradesOf [⟨0, "A", "buy", 1, 1⟩]).length = 1 ∧
    ([⟨0, "A", "buy", 1, 1⟩] : List Trade).length / 3 = 0 := by
  constructor
  · rfl
  · rfl

/-- C2 amended: the Recency rule selects the last `floor(n / 3)` trades of
the date-sorted list when that floor is positive, and the WHOLE list when
the floor is zero (`n = 1` or `n = 2`, the `slice(-0)` degenerate case);
the single insight is emitted exactly when the selected share exceeds 40
percent, with that percentage as its metric. -/
theorem C2_recency_amended (trades : List Trade) (_hne : trades ≠ []) :
    ((recentTradesOf trades).length =
      if trades.length / 3 = 0 then trades.length else trades.length / 3) ∧
    (recencyInsights trades ≠ [] ↔ 40 < recentConcentration trades) ∧
    (∀ b ∈ recencyInsights trades,
      b.type = "Recency Bias" ∧ b.severity = Severity.medium ∧
      b.metric = recentConcentration trades ∧ b ∈ (analyzeTrades trades).insights) := by
  refine ⟨recentTradesOf_length trades, ?_, ?_⟩
  · unfold recencyInsights
    split
    · rename_i h
      exact ⟨fun _ => h, fun _ => by simp⟩
    · rename_i h
      constructor
      · intro hx
        exact absurd rfl hx
      · intro hx
        exact absurd hx h
  · intro b hb
    have hmem : b ∈ (analyzeTrades trades).insights := by
      rw [analyzeTrades_insights]
      simp only [List.mem_append]
      exact Or.inl (Or.inl (Or.inr hb))
    unfold recencyInsights at hb
    split at hb
    · rw [List.mem_singleton] at hb
      subst hb
      exact ⟨rfl, rfl, rfl, hmem⟩
    · exact absurd hb (List.not_mem_nil b)

/-- Witness for C2 amended on a one-trade list: the whole list is selected. -/
theorem C2_recency_amended_witness :
    ([⟨0, "A", "buy", 1, 1⟩] : List Trade) ≠ [] ∧
    (recentTradesOf [⟨0, "A", "buy", 1, 1⟩]).length = 1 := by
  refine ⟨by simp, ?_⟩
  have h := (C2_recency_amended [⟨0, "A", "buy", 1, 1⟩] (by simp)).1
  norm_num at h
  exact h

/-- C3: the buy-branch division `(avgCost * position + price * quantity) /
(position + quantity)` is NOT guarded in the source; a zero-quantity buy on
a flat position makes the divisor zero (in JavaScript `0 / 0 = NaN`), so
the division-safety monitor evaluates to `false` on that input. -/
theorem C3_buy_division_unguarded :
    buyDivOk [⟨0, "A", "buy", 0, 5⟩] = false := by
  norm_num [buyDivOk, groupKeys, symbolGroup, passOk, stepOk, initState, step, lower_buy]

/-- C4: the computed profit factor equals `sum profits / sum losses`
whenever the average loss is positive, and is `0` otherwise (in particular
whenever the losses list is empty, where the average loss is `0`). -/
theorem C4_profit_factor (profits losses : List ℚ) :
    profitFactorOf profits losses =
      if 0 < meanList losses then sumQ profits / sumQ losses else 0 := by
  unfold profitFactorOf
  split
  · rw [meanList_mul_length, meanList_mul_length]
  · rfl

/-- Input refuting C5's average-loss bound: every quantity and price is
non-negative and finite, yet the leading zero-quantity buy makes the
source's unguarded buy division compute `avgCost = 0 / 0 = NaN`, which
propagates through the second buy into `pnl = NaN` on the sell, lands in
`losses` as `Math.abs(NaN) = NaN` and makes `avgLoss = NaN`, for which
`NaN >= 0` is false in JavaScript. -/
def scenarioDivZero : List Trade :=
  [{ date := 0, symbol := "A", action := "buy", quantity := 0, price := 5 },
   { date := 1, symbol := "A", action := "buy", quantity := 10, price := 10 },
   { date := 2, symbol := "A", action := "sell", quantity := 5, price := 12 }]

/-- C5: the claimed bound `avgLoss >= 0` under non-negative finite inputs
fails in the source on `scenarioDivZero` (see its doc comment): the input
satisfies the claim's precondition, the division-safety monitor is
nonetheless `false` on it, and the rational model — whose total division
reads `0 / 0 = 0` and therefore cannot represent the NaN path — instead
realizes the sell as the single profit event `[10]`. -/
theorem C5_avgLoss_nonneg_fails_unguarded :
    (∀ t ∈ scenarioDivZero, 0 ≤ t.quantity ∧ 0 ≤ t.price) ∧
    buyDivOk scenarioDivZero = false ∧
    allPnl scenarioDivZero = ([10], []) := by
  refine ⟨?_, ?_, ?_⟩
  · intro t ht
    simp only [scenarioDivZero, List.mem_cons, List.not_mem_nil, or_false] at ht
    rcases ht with rfl | rfl | rfl <;> norm_num
  · norm_num [scenarioDivZero, buyDivOk, groupKeys, symbolGroup, passOk, stepOk, initState,
      step, lower_buy, lower_sell, sell_ne_buy]
  · norm_num [scenarioDivZero, allPnl, groupKeys, symbolGroup, passSymbol, initState, step,
      lower_buy, lower_sell, sell_ne_buy]

/-- C6: the Strategy Effectiveness insight (severity high, metric
`100 - winRate`) is emitted exactly when the raw win rate is below 40, and
no other rule emits that type; on the empty trade list the statistics are
all zero and the only insight is Strategy Effectiveness with metric 100. -/
theorem C6_strategy_rule :
    (∀ trades : List Trade,
      (analyzeTrades trades).insights.filter (fun b => b.type = "Strategy Effectiveness") =
        (if winRateRaw (allPnl trades).1 (allPnl trades).2 < 40 then
          [{ type := "Strategy Effectiveness", severity := Severity.high,
             metric := 100 - winRateRaw (allPnl trades).1 (allPnl trades).2 }]
        else [])) ∧
    analyzeTrades [] =
      { insights := [{ type := "Strategy Effectiveness", severity := Severity.high,
                       metric := 100 }],
        stats := { totalTrades := 0, winRate := 0, avgProfit := 0, avgLoss := 0,
                   profitFactor := 0 } } := by
  constructor
  · intro trades
    rw [analyzeTrades_insights, List.filter_append, List.filter_append, List.filter_append,
      List.filter_append, filterStrat_lossAversion, filterStrat_overtrading,
      filterStrat_recency, filterStrat_confirmation, filterStrat_strategy]
    simp only [List.nil_append]
    unfold strategyInsights
    rfl
  · exact analyzeTrades_nil

/-- C7: on scenario A (buy 10 at 10 then sell 10 at 15, one symbol) the
engine produces exactly one profit event of 50 and no loss event, and the
statistics are totalTrades 2, winRate 100, avgProfit 50, avgLoss 0 and
profitFactor 0 (the zero-average-loss branch). -/
theorem C7_scenarioA :
    allPnl scenarioA = ([50], []) ∧
    (analyzeTrades scenarioA).stats =
      { totalTrades := 2, winRate := 100, avgProfit := 50, avgLoss := 0,
        profitFactor := 0 } := by
  refine ⟨allPnl_scenarioA, ?_⟩
  rw [analyzeTrades_stats, allPnl_scenarioA]
  norm_num [scenarioA, winRateRaw, meanList, sumQ, profitFactorOf, toFixed1]

/-- C8 counterexample: no input produces an insight with metric above 100,
refuting the existence claim. -/
theorem C8_metric_counterexample :
    ¬ ∃ trades : List Trade, ∃ b ∈ (analyzeTrades trades).insights, 100 < b.metric := by
  rintro ⟨trades, b, hb, hgt⟩
  exact absurd (metric_le_100_all trades b hb) (not_le.2 hgt)

/-- C8 amended: every emitted insight has metric at most 100 (the Loss
Aversion and Overtrading metrics are capped by `min`, the two
concentration metrics are percentages of a subset, and the Strategy
metric is `100 - winRate` with a non-negative win rate). -/
theorem C8_metric_amended (trades : List Trade) (b : BiasInsight)
    (hb : b ∈ (analyzeTrades trades).insights) : b.metric ≤ 100 :=
  metric_le_100_all trades b hb

/-- Witness for C8 amended at the empty-list Strategy insight. -/
theorem C8_metric_amended_witness :
    (⟨"Strategy Effectiveness", Severity.high, 100⟩ : BiasInsight) ∈
      (analyzeTrades []).insights ∧
    (⟨"Strategy Effectiveness", Severity.high, 100⟩ : BiasInsight).metric ≤ 100 := by
  have hmem : (⟨"Strategy Effectiveness", Severity.high, 100⟩ : BiasInsight) ∈
      (analyzeTrades []).insights := by
    rw [analyzeTrades_nil]
    exact List.mem_singleton_self _
  exact ⟨hmem, C8_metric_amended [] _ hmem⟩

/-- C9: when the average profit is zero and the average loss is positive,
the Loss Aversion rule still fires (its condition `avgLoss > avgProfit * 1.5`
holds) and its metric — the min-capped image of the IEEE infinite quotient
`avgLoss / 0` — is exactly 100. -/
theorem C9_loss_aversion_infinity (trades : List Trade)
    (h1 : meanList (allPnl trades).1 = 0)
    (h2 : 0 < meanList (allPnl trades).2) :
    lossAversionInsights (meanList (allPnl trades).1) (meanList (allPnl trades).2) =
      [{ type := "Loss Aversion Bias", severity := Severity.high, metric := 100 }] ∧
    (⟨"Loss Aversion Bias", Severity.high, 100⟩ : BiasInsight) ∈
      (analyzeTrades trades).insights := by
  have hcond : meanList (allPnl trades).1 * 1.5 < meanList (allPnl trades).2 := by
    rw [h1]
    norm_num
    exact h2
  have hfirst : lossAversionInsights (meanList (allPnl trades).1)
      (meanList (allPnl trades).2) =
      [{ type := "Loss Aversion Bias", severity := Severity.high, metric := 100 }] := by
    unfold lossAversionInsights
    rw [if_pos hcond]
    unfold lossAversionMetric
    rw [if_pos h1]
  refine ⟨hfirst, ?_⟩
  rw [analyzeTrades_insights, hfirst]
  simp

/-- Witness for C9 on a pure-loss scenario (buy 10 at 10, sell 10 at 5). -/
theorem C9_loss_aversion_infinity_witness :
    meanList (allPnl scenarioLoss).1 = 0 ∧ 0 < meanList (allPnl scenarioLoss).2 ∧
    (⟨"Loss Aversion Bias", Severity.high, 100⟩ : BiasInsight) ∈
      (analyzeTrades scenarioLoss).insights := by
  have h1 : meanList (allPnl scenarioLoss).1 = 0 := by
    rw [allPnl_scenarioLoss]
    norm_num [meanList]
  have h2 : 0 < meanList (allPnl scenarioLoss).2 := by
    rw [allPnl_scenarioLoss]
    norm_num [meanList, sumQ]
  exact ⟨h1, h2, (C9_loss_aversion_infinity scenarioLoss h1 h2).2⟩

/-- C10: with no precondition on quantities or prices, every element of the
pooled profits list is strictly positive, and the average profit is
strictly positive whenever at least one profit event exists. -/
theorem C10_profits_positive (trades : List Trade) :
    (∀ x ∈ (allPnl trades).1, 0 < x) ∧
    ((allPnl trades).1 ≠ [] → 0 < meanList (allPnl trades).1) := by
  refine ⟨(allPnl_inv trades).1, fun hne => meanList_pos _ hne (allPnl_inv trades).1⟩

/-- Witness for C10 on scenario A, whose profits list is `[50]`. -/
theorem C10_profits_positive_witness :
    (allPnl scenarioA).1 ≠ [] ∧ 0 < meanList (allPnl scenarioA).1 := by
  have hne : (allPnl scenarioA).1 ≠ [] := by
    rw [allPnl_scenarioA]
    simp
  exact ⟨hne, (C10_profits_positive scenarioA).2 hne⟩

end TradeBias
